import Mathlib

/-!
Verification of the core of `phash` (package `phash`, file `phash.go`):
a concurrent image-fingerprinting pipeline.  Pure functions of the source
(`unpackHash`, the filename regex of `getImages`, the batching loop of
`storeHashes`, the error policies of `commitFrames`, `retry` and
`lookupHashes`) are embedded as executable Lean definitions; external
capabilities (the filesystem, gocv image decoding, the BlockMeanHash
capability and the sqlite driver) are passed in as oracle parameters, since
the Go code only observes their results.

Machine integers: Go `int` is 64-bit here; frame numbers come from
`strconv.Atoi` applied to a digit group, so only non-negative values occur
and they are modelled as `Nat` with the `2^63` overflow bound made explicit
in the `Atoi` model.  Bytes are modelled as `Nat` reduced mod 256 where
their 8-bit width matters.
-/

set_option maxRecDepth 10000

/-- An image descriptor (`type image struct` in phash.go).  The two
`gocv.Mat` fields hold native handles: the decoded picture `img` is
modelled by the decode oracle given to `getImages` (only its emptiness is
ever observed), and `hash` is modelled as the byte list that
`img.hash.ToBytes()` yields. -/
structure image where
  path : String
  frame : Nat
  hash : List Nat
  key : String
  deriving Repr, DecidableEq

/-- The `PHasher` configuration struct of phash.go.  `DBTimeout` is a
`time.Duration`; only the retry loop observes it and the loop is modelled
with an attempt budget (see `retry`), so the field is kept abstract as a
`Nat`. -/
structure PHasher where
  DBFile : String
  DBTimeout : Nat
  KeyFile : String
  HashProcs : Int

/-- Big-endian 32-bit word from a byte list, as `binary.Read` with
`binary.BigEndian` assembles a `uint32` from 4 bytes.  `% 256` records that
the source bytes are `uint8`. -/
def word32BE (bs : List Nat) : Nat :=
  bs.foldl (fun a b => a * 256 + b % 256) 0

/-- The read loop of `unpackHash`: `n` remaining `binary.Read` calls on a
`bytes.Buffer` holding `buf`.  A full 4-byte read yields the big-endian
word and consumes 4 bytes; a short read (`io.ReadFull` inside
`binary.Read`) consumes the whole remainder, returns an error that the
source ignores, and leaves the destination word at its zero value from
`make([]uint32, 4)`. -/
def unpackHashAux (buf : List Nat) : Nat → List Nat
  | 0 => []
  | n + 1 =>
    if 4 ≤ buf.length then
      word32BE (buf.take 4) :: unpackHashAux (buf.drop 4) n
    else
      0 :: unpackHashAux [] n

/-- `unpackHash` of phash.go: converts a hash byte slice into four
`uint32` words. -/
def unpackHash (h : List Nat) : List Nat :=
  unpackHashAux h 4

/-! ### The scanner (`getImages`) and its filename regex

`getImages` compiles `(.*)-([0-9]+)[.]jpg` and applies
`re.FindStringSubmatch(f.Name())`.  Go's `regexp` (non-POSIX) uses
leftmost-first semantics with greedy quantifiers and `.` not matching a
newline, so on a name the match is found as follows: the overall match
starts at the least position `s` from which the rest of the pattern can
succeed; group 1 (`.*`, greedy, newline-free) then extends to the largest
`i ≥ s` such that position `i` holds `'-'` followed by a nonempty digit
run and then `".jpg"`, with no newline in `[s, i)`.  Group 2 is the
maximal digit run after that `'-'`: a shorter run cannot succeed, since
it would have to be followed by `'.'` but is followed by a digit. -/

/-- Did the suffix of `cs` at position `i` start with `'-'`, a nonempty
digit run (group 2) and then the literal `".jpg"`?  Returns the digit
run. -/
def dashMatch (cs : List Char) (i : Nat) : Option (List Char) :=
  match cs.drop i with
  | '-' :: rest =>
    let ds := rest.takeWhile Char.isDigit
    if ds = [] then none
    else if (rest.drop ds.length).take 4 = ['.', 'j', 'p', 'g'] then some ds
    else none
  | _ => none

/-- Can `.*` span from `s` to the dash at `i` (no newline in between)? -/
def dotStarOK (cs : List Char) (s i : Nat) : Bool :=
  decide (s ≤ i) && !(((cs.drop s).take (i - s)).contains '\n')

/-- `re.FindStringSubmatch` for `(.*)-([0-9]+)[.]jpg`: `some (g1, g2)`
with group 1 as a string and group 2 as the digit characters, or `none`
when the name contains no `-<digits>.jpg` substring (reachable from a
newline-free start). -/
def reFindSubmatch (name : String) : Option (String × List Char) :=
  let cs := name.data
  let cands := (List.range cs.length).filter (fun i => (dashMatch cs i).isSome)
  match (List.range (cs.length + 1)).find? (fun s => cands.any (fun i => dotStarOK cs s i)) with
  | none => none
  | some s =>
    match (cands.filter (fun i => dotStarOK cs s i)).getLast? with
    | none => none
    | some i =>
      match dashMatch cs i with
      | some ds => some (String.mk ((cs.drop s).take (i - s)), ds)
      | none => none

/-- Numeric value of a digit run. -/
def digitsVal (ds : List Char) : Nat :=
  ds.foldl (fun a c => a * 10 + (c.toNat - '0'.toNat)) 0

/-- `strconv.Atoi` applied to the regex's digit group (nonempty, decimal
digits only, no sign): it fails exactly when the value overflows the
64-bit `int`. -/
def goAtoi (ds : List Char) : Option Nat :=
  if digitsVal ds < 2 ^ 63 then some (digitsVal ds) else none

/-- The component stack of Go `path.Clean`: empty and `"."` components
vanish; `".."` pops the previous component when one is poppable, is
dropped at the root, and accumulates otherwise. -/
def cleanStack (rooted : Bool) : List (List Char) → List (List Char) → List (List Char)
  | acc, [] => acc
  | acc, c :: rest =>
    if c = [] ∨ c = ['.'] then cleanStack rooted acc rest
    else if c = ['.', '.'] then
      match acc with
      | [] => if rooted then cleanStack rooted [] rest
              else cleanStack rooted [['.', '.']] rest
      | _ =>
        if acc.getLast? = some ['.', '.'] then cleanStack rooted (acc ++ [['.', '.']]) rest
        else cleanStack rooted acc.dropLast rest
    else cleanStack rooted (acc ++ [c]) rest

/-- Go `path.Clean`. -/
def pathClean (s : String) : String :=
  if s = "" then "."
  else
    let cs := s.data
    let rooted := cs.head? = some '/'
    let comps := cleanStack rooted [] (List.splitOn '/' cs)
    let body := String.mk (List.intercalate ['/'] comps)
    if rooted then (if body = "" then "/" else "/" ++ body)
    else (if body = "" then "." else body)

/-- Go `path.Join` for the two-argument calls of phash.go: empty elements
contribute nothing, the rest are joined with `'/'` and cleaned. -/
def pathJoin (a b : String) : String :=
  if a = "" && b = "" then ""
  else if a = "" then pathClean b
  else pathClean (a ++ "/" ++ b)

/-- The body of the scanner's per-entry loop: regex match, frame parse
(`strconv.Atoi`, skip with a warning on failure), key derivation (key-file
content when configured, else directory joined with group 1), decode via
`gocv.IMRead` (the `decodeEmpty` oracle tells whether the resulting Mat is
empty, in which case the entry is skipped). -/
def scanEntry (p : String) (fileKey : Option String) (decodeEmpty : String → Bool)
    (name : String) : Option image :=
  match reFindSubmatch name with
  | none => none
  | some (g1, ds) =>
    match goAtoi ds with
    | none => none
    | some fr =>
      let fullPath := pathJoin p name
      let key :=
        match fileKey with
        | some fk => fk
        | none => pathJoin p g1
      if decodeEmpty fullPath then none
      else some { path := fullPath, frame := fr, hash := [], key := key }

/-- `getImages` of phash.go for one input path.  Oracles: `files` is the
`ioutil.ReadDir` result (`none` = error, which is logged and ends the
scan), `keyContent` is the `ioutil.ReadFile` result for the directory's
key file (consulted only when `h.KeyFile` is configured; an error or empty
content ends the scan), `decodeEmpty` models `gocv.IMRead`.  The returned
list holds the descriptors sent on the intake channel, in order. -/
def getImages (h : PHasher) (p : String) (files : Option (List String))
    (keyContent : Option String) (decodeEmpty : String → Bool) : List image :=
  match files with
  | none => []
  | some fs =>
    if fs = [] then []
    else if h.KeyFile = "" then fs.filterMap (scanEntry p none decodeEmpty)
    else
      match keyContent with
      | none => []
      | some fk =>
        if fk = "" then [] else fs.filterMap (scanEntry p (some fk) decodeEmpty)

/-! ### The worker pool (`processImages`) -/

/-- One iteration of `processImages`: the fingerprint is computed by the
external `cv_contrib.BlockMeanHash` capability (`hasher.Compute`) and the
decoded image is released.  The capability is an oracle parameter; the
source comment documents its output as "block mean hash: 1x32 bytes". -/
def processImage (compute : image → List Nat) (img : image) : image :=
  { img with hash := compute img }

/-- The worker pool body: every descriptor received from the intake
channel is forwarded to the output channel with its fingerprint set.
Channel interleaving is abstracted as the list of received descriptors. -/
def processImages (compute : image → List Nat) (imgs : List image) : List image :=
  imgs.map (processImage compute)

/-! ### The store sink (`storeHashes`) -/

/-- The accumulation loop of `storeHashes`, returning the batches handed
to asynchronous commit tasks in dispatch order.  The state is
`(count, imgs, dispatched)`; the source appends, tests
`count % batch == 0` BEFORE incrementing `count`, and after the channel
closes launches one final commit with whatever remains (possibly
nothing). -/
def storeBatches (input : List image) : List (List image) :=
  let step : Nat × List image × List (List image) → image →
      Nat × List image × List (List image) :=
    fun st img =>
      let cur := st.2.1 ++ [img]
      if st.1 % 100 = 0 then (st.1 + 1, [], st.2.2 ++ [cur])
      else (st.1 + 1, cur, st.2.2)
  let fin := input.foldl step (0, [], [])
  fin.2.2 ++ [fin.2.1]

/-- A run of descriptors for evaluating the batching loop. -/
def dummyImgs (n : Nat) : List image :=
  (List.range n).map (fun i => { path := "p", frame := i, hash := [], key := "k" })

/-- Go `strings.Contains`: `needle` occurs contiguously in `hay`. -/
def listContainsSub (hay needle : List Char) : Bool :=
  (List.range (hay.length + 1)).any (fun i => (hay.drop i).take needle.length == needle)

/-- The uniqueness-violation test of `commitFrames`:
`strings.Contains(err.Error(), "UNIQUE constraint failed")`. -/
def isUniqueErr (e : String) : Bool :=
  listContainsSub e.data "UNIQUE constraint failed".data

/-- The lock-contention test of `retry`:
`strings.Contains(err.Error(), "database is locked")`. -/
def isLockedErr (e : String) : Bool :=
  listContainsSub e.data "database is locked".data

/-- An `stmt.Exec` outcome the batch loop keeps going after: success, or
an error absorbed as a uniqueness violation. -/
def execOkOrUnique : Option String → Bool
  | none => true
  | some e => isUniqueErr e

/-- Outcomes of the sqlite driver calls made by one `commitFrames` run:
`db.Begin`, `tx.Prepare`, the `i`-th `stmt.Exec`, and `tx.Commit`
(`none` = success, `some msg` = error with message `msg`). -/
structure DBOracle where
  beginErr : Option String
  prepareErr : Option String
  execErr : Nat → Option String
  commitErr : Option String

/-- Result of one `commitFrames` run: the returned error, the number of
`stmt.Exec` calls performed, and whether the transaction was committed
(when `false`, the deferred `tx.Rollback()` rolled it back). -/
structure CommitResult where
  ret : Option String
  execed : Nat
  committed : Bool
  deriving Repr, DecidableEq

/-- The insert loop of `commitFrames` starting at position `i`.  A `nil`
descriptor makes the source return `nil` early (transaction rolled back by
the defer); an `Exec` error whose message lacks "UNIQUE constraint failed"
is returned at once; otherwise the loop continues to the final
`tx.Commit()`. -/
def commitLoop (o : DBOracle) : List (Option image) → Nat → CommitResult
  | [], i =>
    (match o.commitErr with
     | some e => { ret := some e, execed := i, committed := false }
     | none => { ret := none, execed := i, committed := true })
  | none :: _, i => { ret := none, execed := i, committed := false }
  | some _ :: rest, i =>
    (match o.execErr i with
     | some e =>
       if isUniqueErr e then commitLoop o rest (i + 1)
       else { ret := some e, execed := i + 1, committed := false }
     | none => commitLoop o rest (i + 1))

/-- `commitFrames` of `storeHashes`: begin a transaction, prepare the
insert, run the loop.  (Descriptors are modelled as `Option image` to keep
the source's `img == nil` guard; the channel only ever carries non-nil
pointers.) -/
def commitFrames (o : DBOracle) (imgs : List (Option image)) : CommitResult :=
  match o.beginErr with
  | some e => { ret := some e, execed := 0, committed := false }
  | none =>
    match o.prepareErr with
    | some e => { ret := some e, execed := 0, committed := false }
    | none => commitLoop o imgs 0

/-- The `retry` closure of `storeHashes`, a do-while loop: invoke `f`,
return its result unless the error message contains "database is locked",
and otherwise loop while `time.Now().Before(start.Add(timeout))`.
`outcomes i` is the error of the `i`-th invocation; since real time
strictly advances, the continuation test passes only finitely often and
`fuel` counts how many times it does. -/
def retryAux (outcomes : Nat → Option String) : Nat → Nat → Option String
  | i, 0 => outcomes i
  | i, fuel + 1 =>
    match outcomes i with
    | none => none
    | some e => if isLockedErr e then retryAux outcomes (i + 1) fuel else some e

/-- `retry` with the first attempt at index 0. -/
def retry (outcomes : Nat → Option String) (fuel : Nat) : Option String :=
  retryAux outcomes 0 fuel

/-- An attempt outcome that stops the retry loop at once: success, or a
failure that is not lock contention. -/
def terminalOutcome : Option String → Bool
  | none => true
  | some e => !isLockedErr e

/-- The arguments `commitFrames` passes to the prepared INSERT:
`stmt.Exec(img.key, img.frame, un[0], un[1], un[2], un[3])` with
`un = unpackHash(img.hash.ToBytes())`. -/
def insertRowArgs (img : image) : String × Nat × List Nat :=
  (img.key, img.frame, unpackHash img.hash)

/-- The pair `printHashes` prints for a descriptor
(`fmt.Printf` of the path and the unpacked hash). -/
def printedPair (img : image) : String × List Nat :=
  (img.path, unpackHash img.hash)

/-- The four words `lookupHash` binds in
`stmt.Query(un[0], un[1], un[2], un[3])`. -/
def lookupQueryArgs (img : image) : List Nat :=
  unpackHash img.hash

/-- Count of `wg.Add(1)` calls on the pipeline's sink WaitGroup in a
store run: one from the orchestrator for the `storeHashes` goroutine plus
one per dispatched batch.  `attempts` records, per dispatched batch, how
many times the retry wrapper invoked `commitFrames` (at least 1). -/
def sinkWgAdds (attempts : List Nat) : Nat :=
  1 + attempts.length

/-- Count of `wg.Done()` calls delivered to the same WaitGroup:
`storeHashes`' own deferred `wg.Done()` plus — because `commitFrames`
itself defers `wg.Done()` — one per commit ATTEMPT rather than one per
batch. -/
def sinkWgDones (attempts : List Nat) : Nat :=
  1 + attempts.sum

/-- Running WaitGroup counter over a list of `+1` (Add) / `-1` (Done)
events, starting from `c`: the trajectory including the initial value. -/
def wgCounter (c : Int) : List Int → List Int
  | [] => [c]
  | e :: es => c :: wgCounter (c + e) es

/-! ### The query sink (`lookupHashes`) -/

/-- One `rows.Next()` iteration's result: a scanned `(fullpath, frame)`
row or a `rows.Scan` failure. -/
inductive RowScan where
  | ok (fullpath : String) (frame : Nat)
  | scanFail (msg : String)
  deriving Repr, DecidableEq

/-- Outcomes of the driver calls made by one `lookupHash` goroutine:
`stmt.Query`, the row iteration, and the final `rows.Err()`. -/
structure LookupOracle where
  queryErr : Option String
  rows : List RowScan
  rowsErr : Option String

/-- What one `lookupHash` goroutine does: print the result line, log and
return (skipping only this lookup), or `log.Fatal` — which terminates the
whole process. -/
inductive LookupOutcome where
  | printed (path : String) (un : List Nat) (paths : List String) (frames : List Nat)
  | logged
  | fatal (msg : String)
  deriving Repr, DecidableEq

/-- Is the row successfully scanned? -/
def rowScanOk : RowScan → Bool
  | .ok _ _ => true
  | .scanFail _ => false

/-- Paths of the successfully scanned rows. -/
def rowPaths (rows : List RowScan) : List String :=
  rows.filterMap (fun r => match r with | .ok p _ => some p | .scanFail _ => none)

/-- Frames of the successfully scanned rows. -/
def rowFrames (rows : List RowScan) : List Nat :=
  rows.filterMap (fun r => match r with | .ok _ f => some f | .scanFail _ => none)

/-- The row loop of `lookupHash`: `rows.Next()`/`rows.Scan` collect
`(fullpath, frame)` pairs into the accumulators; a `Scan` failure or a
final `rows.Err()` error hits `log.Fatal`. -/
def scanRows (img : image) (rowsErr : Option String) :
    List RowScan → List String → List Nat → LookupOutcome
  | [], paths, frames =>
    (match rowsErr with
     | some e => .fatal e
     | none => .printed img.path (unpackHash img.hash) paths frames)
  | .ok p f :: rest, paths, frames => scanRows img rowsErr rest (paths ++ [p]) (frames ++ [f])
  | .scanFail e :: _, _, _ => .fatal e

/-- The `lookupHash` closure of `lookupHashes` for one descriptor: a
`stmt.Query` error is logged and only this lookup returns; otherwise the
rows are scanned and the result line printed. -/
def lookupHash (o : LookupOracle) (img : image) : LookupOutcome :=
  match o.queryErr with
  | some _ => .logged
  | none => scanRows img o.rowsErr o.rows [] []

/-! ### Spec-side definitions (for comparison with the source) -/

/-- The claim's filename pattern `<key>-<digits>.jpg` read as a
whole-filename match, stated from the spec's words: the name decomposes as
`stem ++ "-" ++ digits ++ ".jpg"` with a nonempty digit group reaching the
end of the name. -/
def specFullPatternMatch (name : String) : Bool :=
  (List.range name.data.length).any (fun i =>
    match dashMatch name.data i with
    | some ds => i + 1 + ds.length + 4 == name.data.length
    | none => false)

/-- ASCII whitespace (the fragment of Unicode whitespace relevant here). -/
def isSpaceChar (c : Char) : Bool :=
  c == ' ' || c == '\t' || c == '\n' || c == '\r' || c.toNat == 11 || c.toNat == 12

/-- Modelled from the spec: the "trimmed" key-file contents the spec
promises (`strings.TrimSpace` behaviour — leading and trailing whitespace
removed).  The source has no counterpart; this definition exists to be
compared with what `getImages` actually uses. -/
def specTrimSpace (s : String) : String :=
  String.mk (((s.data.dropWhile isSpaceChar).reverse.dropWhile isSpaceChar).reverse)

/-- A concrete descriptor for counterexamples and witnesses. -/
def img0 : image :=
  { path := "d/a-1.jpg", frame := 1, hash := [], key := "d/a" }

theorem word32BE_foldl_lt (bs : List Nat) :
    ∀ a : Nat, bs.foldl (fun a b => a * 256 + b % 256) a < (a + 1) * 256 ^ bs.length := by
  induction bs with
  | nil => intro a; simp
  | cons c cs ih =>
    intro a
    have h1 : cs.foldl (fun a b => a * 256 + b % 256) (a * 256 + c % 256)
        < (a * 256 + c % 256 + 1) * 256 ^ cs.length := ih _
    have h2 : a * 256 + c % 256 + 1 ≤ (a + 1) * 256 := by
      have : c % 256 < 256 := Nat.mod_lt _ (by omega)
      omega
    calc cs.foldl (fun a b => a * 256 + b % 256) (a * 256 + c % 256)
        < (a * 256 + c % 256 + 1) * 256 ^ cs.length := h1
      _ ≤ (a + 1) * 256 * 256 ^ cs.length := Nat.mul_le_mul_right _ h2
      _ = (a + 1) * 256 ^ (cs.length + 1) := by ring

theorem word32BE_lt (bs : List Nat) (hlen : bs.length ≤ 4) : word32BE bs < 2 ^ 32 := by
  have h := word32BE_foldl_lt bs 0
  have h2 : (0 + 1) * 256 ^ bs.length ≤ 2 ^ 32 := by
    have : 256 ^ bs.length ≤ 256 ^ 4 :=
      Nat.pow_le_pow_right (by omega) hlen
    simpa using this.trans (by norm_num)
  exact Nat.lt_of_lt_of_le h h2

/-- Closed form of `unpackHash`: word `i` is the big-endian value of bytes
`4*i .. 4*i+3` when at least `4*(i+1)` input bytes exist, and `0`
otherwise. -/
theorem unpackHash_eq (h : List Nat) :
    unpackHash h =
      [ (if 4 ≤ h.length then word32BE (h.take 4) else 0),
        (if 8 ≤ h.length then word32BE ((h.drop 4).take 4) else 0),
        (if 12 ≤ h.length then word32BE ((h.drop 8).take 4) else 0),
        (if 16 ≤ h.length then word32BE ((h.drop 12).take 4) else 0) ] := by
  have hdd : ∀ (n m : Nat), (h.drop n).drop m = h.drop (n + m) := by
    intro n m; rw [List.drop_drop, Nat.add_comm]
  by_cases h4 : 4 ≤ h.length
  · by_cases h8 : 8 ≤ h.length
    · by_cases h12 : 12 ≤ h.length
      · by_cases h16 : 16 ≤ h.length
        · simp [unpackHash, unpackHashAux, List.length_drop, hdd,
            h4, h8, h12, h16, Nat.le_sub_iff_add_le, *]
        · simp only [unpackHash, unpackHashAux, List.length_drop]
          rw [if_pos h4, if_pos (by omega), if_pos (by omega), if_neg (by omega)]
          simp [hdd, h4, h8, h12, h16]
      · simp only [unpackHash, unpackHashAux, List.length_drop]
        rw [if_pos h4, if_pos (by omega), if_neg (by omega), if_neg (by simp)]
        simp [hdd, h4, h8, h12, show ¬ 16 ≤ h.length by omega]
    · simp only [unpackHash, unpackHashAux, List.length_drop]
      rw [if_pos h4, if_neg (by omega), if_neg (by simp), if_neg (by simp)]
      simp [hdd, h4, h8, show ¬ 12 ≤ h.length by omega,
        show ¬ 16 ≤ h.length by omega]
  · simp only [unpackHash, unpackHashAux, List.length_drop]
    rw [if_neg h4, if_neg (by simp), if_neg (by simp), if_neg (by simp)]
    simp [h4, show ¬ 8 ≤ h.length by omega, show ¬ 12 ≤ h.length by omega,
      show ¬ 16 ≤ h.length by omega]

/-- Only the first `4*n` buffered bytes influence `n` reads. -/
theorem unpackHashAux_take (n : Nat) :
    ∀ buf : List Nat, unpackHashAux (buf.take (4 * n)) n = unpackHashAux buf n := by
  induction n with
  | zero => intro buf; rfl
  | succ k ih =>
    intro buf
    by_cases h4 : 4 ≤ buf.length
    · have ht : 4 ≤ (buf.take (4 * (k + 1))).length := by
        rw [List.length_take]; omega
      simp only [unpackHashAux, if_pos ht, if_pos h4]
      have hhead : (buf.take (4 * (k + 1))).take 4 = buf.take 4 := by
        rw [List.take_take]; congr 1; omega
      have htail : (buf.take (4 * (k + 1))).drop 4 = (buf.drop 4).take (4 * k) := by
        rw [List.drop_take]; congr 1
      rw [hhead, htail, ih]
    · have hall : buf.take (4 * (k + 1)) = buf :=
        List.take_of_length_le (by omega)
      rw [hall]

/-- Claim C9: `unpackHash` is total — for every input byte slice of any
length (nil, empty and short slices included) it returns exactly four
32-bit words, and any word for which fewer than four input bytes remain is
zero (the short-read error of `binary.Read` is ignored and the word keeps
the zero value from `make([]uint32, 4)`). -/
theorem unpackHash_total (h : List Nat) :
    (unpackHash h).length = 4 ∧
      ∀ i : Nat, i < 4 →
        (unpackHash h).getD i 0 =
          if 4 * (i + 1) ≤ h.length then word32BE ((h.drop (4 * i)).take 4) else 0 := by
  rw [unpackHash_eq h]
  refine ⟨rfl, ?_⟩
  intro i hi
  interval_cases i <;>
    simp [List.getD]

/-- Witness for claim C9 at the concrete 6-byte input `[1,2,3,4,5,6]` and
word index 1 (a short read: the second word is zero). -/
theorem unpackHash_total_witness :
    (unpackHash [1, 2, 3, 4, 5, 6]).length = 4 ∧
      (unpackHash [1, 2, 3, 4, 5, 6]).getD 1 0 =
        (if 4 * (1 + 1) ≤ ([1, 2, 3, 4, 5, 6] : List Nat).length then
          word32BE ((([1, 2, 3, 4, 5, 6] : List Nat).drop (4 * 1)).take 4) else 0) :=
  ⟨(unpackHash_total [1, 2, 3, 4, 5, 6]).1,
   (unpackHash_total [1, 2, 3, 4, 5, 6]).2 1 (by decide)⟩

/-- Claim C10: the output of `unpackHash` is determined entirely by the
first 16 bytes of its input, so for hashes agreeing on their first 16
bytes the stored row arguments, the printed pair and the lookup query
words all coincide. -/
theorem unpackHash_first16 (h1 h2 : List Nat) (hagree : h1.take 16 = h2.take 16) :
    unpackHash h1 = unpackHash h2 ∧
      ∀ p k : String, ∀ fr : Nat,
        insertRowArgs { path := p, frame := fr, hash := h1, key := k } =
            insertRowArgs { path := p, frame := fr, hash := h2, key := k } ∧
          printedPair { path := p, frame := fr, hash := h1, key := k } =
            printedPair { path := p, frame := fr, hash := h2, key := k } ∧
          lookupQueryArgs { path := p, frame := fr, hash := h1, key := k } =
            lookupQueryArgs { path := p, frame := fr, hash := h2, key := k } := by
  have h16 : (4 : Nat) * 4 = 16 := rfl
  have key : unpackHash h1 = unpackHash h2 := by
    have e1 := unpackHashAux_take 4 h1
    have e2 := unpackHashAux_take 4 h2
    rw [h16] at e1 e2
    rw [unpackHash, unpackHash, ← e1, ← e2, hagree]
  exact ⟨key, fun p k fr =>
    ⟨by simp [insertRowArgs, key], by simp [printedPair, key],
     by simp [lookupQueryArgs, key]⟩⟩

/-- Witness for claim C10 at two concrete inputs sharing their first 16
bytes (a 17-byte and a 16-byte hash). -/
theorem unpackHash_first16_witness :
    unpackHash (List.range 17) = unpackHash (List.range 16) :=
  (unpackHash_first16 (List.range 17) (List.range 16) (by decide)).1

/-- Claim C6 (counterexample): with the BlockMeanHash capability producing
the "1x32 bytes" output documented by the source comment in
`processImages`, the fingerprint the worker pool sets on a descriptor is
256 bits wide — not 128 as the claim states; only its first 16 bytes are
ever unpacked downstream. -/
theorem workerHash_width_counterexample :
    ((processImage (fun _ => List.replicate 32 7) img0).hash.length) * 8 = 256 ∧
      (256 : Nat) ≠ 128 := by
  exact ⟨rfl, by decide⟩

/-- Claim C6 (amended): the worker pool stores the raw capability output
on the descriptor; the 128-bit fingerprint the sinks actually use is its
`unpackHash` image, which is exactly four 32-bit big-endian words whatever
byte width the capability returned. -/
theorem unpacked_fingerprint_width (compute : image → List Nat) (img : image) :
    (unpackHash (processImage compute img).hash).length = 4 ∧
      ∀ w ∈ unpackHash (processImage compute img).hash, w < 2 ^ 32 := by
  rw [unpackHash_eq]
  refine ⟨rfl, ?_⟩
  intro w hw
  simp only [List.mem_cons, List.not_mem_nil, or_false] at hw
  have hz : (0 : Nat) < 2 ^ 32 := by norm_num
  rcases hw with h | h | h | h <;> subst h <;> split_ifs <;>
    first
      | exact word32BE_lt _ (List.length_take_le _ _)
      | exact hz

/-- Witness for claim C6 (amended) at the documented 32-byte capability
output: the first unpacked word of the all-7 hash. -/
theorem unpacked_fingerprint_width_witness :
    (unpackHash (processImage (fun _ => List.replicate 32 7) img0).hash).length = 4 ∧
      (117901063 : Nat) < 2 ^ 32 :=
  ⟨(unpacked_fingerprint_width (fun _ => List.replicate 32 7) img0).1,
   (unpacked_fingerprint_width (fun _ => List.replicate 32 7) img0).2 117901063 (by decide)⟩

/-- Claim C3 (evaluation at the failing input): a store-mode run
delivering 250 descriptors to the sink dispatches FOUR commit batches of
sizes 1, 100, 100 and 49 — not three of 100, 100 and 50 — because the
source tests `count % batch == 0` before incrementing `count`, so the very
first descriptor is committed as a batch of one. -/
theorem storeBatches_250 :
    (storeBatches (dummyImgs 250)).map List.length = [1, 100, 100, 49] := by
  rfl

/-- Claim C8 (evaluation at the failing input): in a store run with two
dispatched batches where batch 0's first commit attempt fails with
"database is locked" and is retried (attempts = [2, 1]), the sink
WaitGroup receives 4 `Done` calls against 3 `Add` calls — because
`commitFrames` defers `wg.Done()` once per INVOCATION while `wg.Add(1)`
runs once per batch — and the legal event prefix Add(sink), Add(batch 0),
Add(batch 1), Done(sink), Done(batch 0 attempt 1), Done(batch 0 attempt 2)
already drives the counter to 0, releasing `dg.Wait()` (and the deferred
`db.Close()`) while batch 1's commit is still in flight; the leftover
`Done` then underflows the counter. -/
theorem storeSink_waitgroup_imbalance :
    sinkWgDones [2, 1] = 4 ∧ sinkWgAdds [2, 1] = 3 ∧
      wgCounter 0 [1, 1, 1, -1, -1, -1] = [0, 1, 2, 3, 2, 1, 0] := by
  refine ⟨rfl, rfl, by decide⟩

theorem retryAux_spec (outcomes : Nat → Option String) :
    ∀ fuel i : Nat,
      retryAux outcomes i fuel =
        match (List.range' i (fuel + 1)).find? (fun j => terminalOutcome (outcomes j)) with
        | some j => outcomes j
        | none => outcomes (i + fuel) := by
  intro fuel
  induction fuel with
  | zero =>
    intro i
    cases ho : outcomes i with
    | none => simp [retryAux, List.range', List.find?, terminalOutcome, ho]
    | some e =>
      by_cases hl : isLockedErr e
      · simp [retryAux, List.range', List.find?, terminalOutcome, ho, hl]
      · simp [retryAux, List.range', List.find?, terminalOutcome, ho, hl]
  | succ k ih =>
    intro i
    cases ho : outcomes i with
    | none => simp [retryAux, List.range', List.find?, terminalOutcome, ho]
    | some e =>
      by_cases hl : isLockedErr e
      · have hterm : terminalOutcome (outcomes i) = false := by
          simp [terminalOutcome, ho, hl]
        simp only [retryAux, ho, hl, if_pos]
        rw [ih (i + 1)]
        have hr : List.range' i (k + 1 + 1) = i :: List.range' (i + 1) (k + 1) := rfl
        rw [hr, List.find?_cons_of_neg _ (by simp [hterm])]
        have : i + 1 + k = i + (k + 1) := by omega
        rw [this]
      · have hterm : terminalOutcome (outcomes i) = true := by
          simp [terminalOutcome, ho, hl]
        have hr : List.range' i (k + 1 + 1) = i :: List.range' (i + 1) (k + 1) := rfl
        rw [hr, List.find?_cons_of_pos _ (by exact hterm)]
        simp [retryAux, ho, hl]

/-- Claim C7: the `retry` wrapper re-invokes the commit while the error
message indicates the store is locked, stopping at the first attempt that
succeeds or fails for a different reason; when the timeout budget is
exhausted first, it returns the last error observed.  `fuel` abstracts the
clock: it is how many times `time.Now().Before(start.Add(timeout))`
passes, so attempts `0 .. fuel` are the ones the budget admits. -/
theorem retry_policy (outcomes : Nat → Option String) (fuel : Nat) :
    retry outcomes fuel =
      match (List.range (fuel + 1)).find? (fun j => terminalOutcome (outcomes j)) with
      | some j => outcomes j
      | none => outcomes fuel := by
  rw [retry, retryAux_spec outcomes fuel 0, List.range_eq_range']
  simp

theorem scanEntry_none_eq_some (p : String) (dec : String → Bool) (f : String) (d : image) :
    scanEntry p none dec f = some d ↔
      ∃ g1 ds, reFindSubmatch f = some (g1, ds) ∧
        ∃ fr, goAtoi ds = some fr ∧ dec (pathJoin p f) = false ∧
          d = { path := pathJoin p f, frame := fr, hash := [], key := pathJoin p g1 } := by
  cases hre : reFindSubmatch f with
  | none => simp [scanEntry, hre]
  | some gds =>
    obtain ⟨g1, ds⟩ := gds
    cases hat : goAtoi ds with
    | none => simp [scanEntry, hre, hat]
    | some fr =>
      by_cases hdec : dec (pathJoin p f) = true
      · simp [scanEntry, hre, hat, hdec]
      · simp only [Bool.not_eq_true] at hdec
        simp only [scanEntry, hre, hat, hdec, Bool.false_eq_true, if_false,
          Option.some.injEq, Option.some.injEq, Prod.mk.injEq, eq_comm]
        constructor
        · intro hd
          exact ⟨g1, ds, ⟨rfl, rfl⟩, fr, hat, trivial, hd⟩
        · rintro ⟨g1x, dsx, ⟨rfl, rfl⟩, frx, hatx, hdx⟩
          rw [hat] at hatx
          cases hatx
          exact hdx.2

/-- Claim C1 (amended): with no key file configured, the scanner's
per-file behaviour is the UNANCHORED regex search the source performs: a
descriptor is emitted for a file exactly when its name contains a
`-<digits>.jpg` substring (and the digit group parses and the image
decodes non-empty), with key = the directory joined with everything
before the matched dash and frame = the digit group's value; names with
no such substring emit nothing. -/
theorem getImages_noKeyFile_characterization (h : PHasher) (p : String)
    (fs : List String) (kc : Option String) (dec : String → Bool)
    (hk : h.KeyFile = "") (d : image) :
    d ∈ getImages h p (some fs) kc dec ↔
      ∃ f ∈ fs, ∃ g1 ds, reFindSubmatch f = some (g1, ds) ∧
        ∃ fr, goAtoi ds = some fr ∧ dec (pathJoin p f) = false ∧
          d = { path := pathJoin p f, frame := fr, hash := [], key := pathJoin p g1 } := by
  by_cases hfs : fs = []
  · subst hfs; simp [getImages]
  · have him : getImages h p (some fs) kc dec = fs.filterMap (scanEntry p none dec) := by
      simp [getImages, hfs, hk]
    rw [him]
    simp only [List.mem_filterMap, scanEntry_none_eq_some]

/-- Claim C1 (counterexample): the filename "a-1.jpg.bak" does NOT match
the pattern `<key>-<digits>.jpg` as a whole filename, yet the scanner
emits a descriptor for it, because `FindStringSubmatch` searches for the
unanchored regex anywhere in the name. -/
theorem scanner_unanchored_counterexample :
    specFullPatternMatch "a-1.jpg.bak" = false ∧
      getImages { DBFile := "", DBTimeout := 0, KeyFile := "", HashProcs := 1 }
          "d" (some ["a-1.jpg.bak"]) none (fun _ => false) =
        [{ path := "d/a-1.jpg.bak", frame := 1, hash := [], key := "d/a" }] := by
  exact ⟨rfl, rfl⟩

/-- Witness for claim C1 (amended) at a concrete one-file directory. -/
theorem getImages_noKeyFile_characterization_witness :
    ({ path := "d/a-1.jpg", frame := 1, hash := [], key := "d/a" } : image) ∈
      getImages { DBFile := "", DBTimeout := 0, KeyFile := "", HashProcs := 1 }
        "d" (some ["a-1.jpg"]) none (fun _ => false) :=
  (getImages_noKeyFile_characterization
      { DBFile := "", DBTimeout := 0, KeyFile := "", HashProcs := 1 }
      "d" ["a-1.jpg"] none (fun _ => false) rfl _).mpr
    ⟨"a-1.jpg", List.mem_singleton.mpr rfl, "a", ['1'], rfl, 1, rfl, rfl, rfl⟩

/-- Claim C2 (counterexample): with key-file content "key\n" the emitted
descriptor's key is the raw "key\n" — `getImages` uses `string(b)` with no
trimming — while the claim promises the trimmed "key". -/
theorem keyfile_untrimmed_counterexample :
    (getImages { DBFile := "", DBTimeout := 0, KeyFile := "k", HashProcs := 1 }
          "d" (some ["a-1.jpg"]) (some "key\n") (fun _ => false)).map image.key =
        ["key\n"] ∧
      specTrimSpace "key\n" = "key" ∧ ("key\n" : String) ≠ "key" := by
  refine ⟨rfl, rfl, by decide⟩

/-- Claim C2 (amended): when key-file mode is configured and the
directory's key file is present with non-empty content, every descriptor
emitted from that directory carries the key file's RAW (untrimmed) content
as its key, regardless of the image filename. -/
theorem getImages_keyFile_key (h : PHasher) (p : String) (fs : List String)
    (s : String) (dec : String → Bool) (hk : h.KeyFile ≠ "") (hs : s ≠ "") :
    ∀ d ∈ getImages h p (some fs) (some s) dec, d.key = s := by
  intro d hd
  by_cases hfs : fs = []
  · subst hfs; simp [getImages] at hd
  · have him : getImages h p (some fs) (some s) dec =
        fs.filterMap (scanEntry p (some s) dec) := by
      simp [getImages, hfs, hk, hs]
    rw [him] at hd
    rcases List.mem_filterMap.mp hd with ⟨f, _, hsome⟩
    cases hre : reFindSubmatch f with
    | none => simp [scanEntry, hre] at hsome
    | some gds =>
      obtain ⟨g1, ds⟩ := gds
      cases hat : goAtoi ds with
      | none => simp [scanEntry, hre, hat] at hsome
      | some fr =>
        by_cases hdec : dec (pathJoin p f) = true
        · simp [scanEntry, hre, hat, hdec] at hsome
        · simp only [Bool.not_eq_true] at hdec
          simp only [scanEntry, hre, hat, hdec, Bool.false_eq_true, if_false,
            Option.some.injEq] at hsome
          rw [← hsome]

/-- Witness for claim C2 (amended) at a concrete directory and key file. -/
theorem getImages_keyFile_key_witness :
    ({ path := "d/a-1.jpg", frame := 1, hash := [], key := "K" } : image).key = "K" :=
  getImages_keyFile_key
    { DBFile := "", DBTimeout := 0, KeyFile := "keyfile", HashProcs := 1 }
    "d" ["a-1.jpg"] "K" (fun _ => false) (by decide) (by decide) _ (by decide)

theorem commitLoop_all_ok (o : DBOracle) :
    ∀ (l : List image) (k : Nat),
      (∀ i, k ≤ i → i < k + l.length → execOkOrUnique (o.execErr i) = true) →
      commitLoop o (l.map some) k = commitLoop o [] (k + l.length) := by
  intro l
  induction l with
  | nil => intro k _; simp
  | cons a rest ih =>
    intro k hok
    have hk : execOkOrUnique (o.execErr k) = true :=
      hok k le_rfl (by simp [List.length_cons])
    have hstep : commitLoop o (some a :: rest.map some) k = commitLoop o (rest.map some) (k + 1) := by
      cases he : o.execErr k with
      | none => simp [commitLoop, he]
      | some e =>
        have hu : isUniqueErr e = true := by
          rw [he] at hk; simpa [execOkOrUnique] using hk
        simp [commitLoop, he, hu]
    rw [List.map_cons, hstep,
      ih (k + 1) (fun i h1 h2 => hok i (by omega) (by simp [List.length_cons]; omega))]
    congr 1
    simp [List.length_cons]
    omega

theorem commitLoop_first_bad (o : DBOracle) :
    ∀ (l : List image) (k i : Nat) (e : String),
      k ≤ i → i < k + l.length →
      o.execErr i = some e → isUniqueErr e = false →
      (∀ j, k ≤ j → j < i → execOkOrUnique (o.execErr j) = true) →
      commitLoop o (l.map some) k = { ret := some e, execed := i + 1, committed := false } := by
  intro l
  induction l with
  | nil =>
    intro k i e hki hlt _ _ _
    exact absurd hlt (by simpa using hki)
  | cons a rest ih =>
    intro k i e hki hlt he hu hok
    rcases Nat.eq_or_lt_of_le hki with rfl | hkilt
    · simp [commitLoop, he, hu]
    · have hjk : execOkOrUnique (o.execErr k) = true := hok k le_rfl hkilt
      have hrest : commitLoop o (rest.map some) (k + 1) =
          { ret := some e, execed := i + 1, committed := false } :=
        ih (k + 1) i e (by omega) (by simp [List.length_cons] at hlt; omega) he hu
          (fun j h1 h2 => hok j (by omega) h2)
      cases hek : o.execErr k with
      | none => simpa [commitLoop, hek] using hrest
      | some ex =>
        have hux : isUniqueErr ex = true := by
          rw [hek] at hjk; simpa [execOkOrUnique] using hjk
        simpa [commitLoop, hek, hux] using hrest

/-- Claim C4: during a batch commit an insert failing with a
uniqueness-constraint violation is silently absorbed — the loop continues
through the remaining descriptors and the transaction still commits —
while the first other database error is returned immediately, the
remaining inserts are not executed, and the transaction is rolled back by
the deferred `tx.Rollback()`.  Each batch runs in its own `commitFrames`
call on its own transaction, so other batches are unaffected. -/
theorem commitFrames_error_policy (o : DBOracle) (imgs : List image)
    (hb : o.beginErr = none) (hp : o.prepareErr = none) :
    ((∀ i, i < imgs.length → execOkOrUnique (o.execErr i) = true) →
        o.commitErr = none →
        commitFrames o (imgs.map some) =
          { ret := none, execed := imgs.length, committed := true }) ∧
      (∀ i e, i < imgs.length → o.execErr i = some e → isUniqueErr e = false →
        (∀ j, j < i → execOkOrUnique (o.execErr j) = true) →
        commitFrames o (imgs.map some) =
          { ret := some e, execed := i + 1, committed := false }) := by
  constructor
  · intro hok hc
    have hloop := commitLoop_all_ok o imgs 0 (fun i _ h2 => hok i (by omega))
    simp only [commitFrames, hb, hp]
    rw [hloop]
    simp [commitLoop, hc]
  · intro i e hi he hu hok
    have hloop := commitLoop_first_bad o imgs 0 i e (by omega) (by omega) he hu
      (fun j _ h2 => hok j h2)
    simp only [commitFrames, hb, hp]
    exact hloop

/-- Witness for claim C4: a three-row batch whose second insert hits a
uniqueness violation still executes all three inserts and commits. -/
theorem commitFrames_error_policy_witness :
    commitFrames
        { beginErr := none, prepareErr := none,
          execErr := fun i =>
            if i = 1 then some "UNIQUE constraint failed: key_hashes.fullpath" else none,
          commitErr := none }
        ((dummyImgs 3).map some) =
      { ret := none, execed := 3, committed := true } :=
  (commitFrames_error_policy
      { beginErr := none, prepareErr := none,
        execErr := fun i =>
          if i = 1 then some "UNIQUE constraint failed: key_hashes.fullpath" else none,
        commitErr := none }
      (dummyImgs 3) rfl rfl).1 (by decide) rfl

theorem scanRows_all_ok (img : image) :
    ∀ (rows : List RowScan) (acc1 : List String) (acc2 : List Nat),
      (∀ r ∈ rows, rowScanOk r = true) →
      scanRows img none rows acc1 acc2 =
        .printed img.path (unpackHash img.hash)
          (acc1 ++ rowPaths rows) (acc2 ++ rowFrames rows) := by
  intro rows
  induction rows with
  | nil => intro acc1 acc2 _; simp [scanRows, rowPaths, rowFrames]
  | cons r rest ih =>
    intro acc1 acc2 hok
    cases r with
    | ok p f =>
      rw [scanRows, ih (acc1 ++ [p]) (acc2 ++ [f]) (fun r hr => hok r (by simp [hr]))]
      simp [rowPaths, rowFrames]
    | scanFail e =>
      exact absurd (hok (RowScan.scanFail e) (by simp)) (by simp [rowScanOk])

theorem scanRows_scanFail (img : image) (re : Option String) :
    ∀ (rows : List RowScan) (acc1 : List String) (acc2 : List Nat) (e : String),
      RowScan.scanFail e ∈ rows →
      ∃ m, scanRows img re rows acc1 acc2 = .fatal m := by
  intro rows
  induction rows with
  | nil => intro _ _ e hmem; simp at hmem
  | cons r rest ih =>
    intro acc1 acc2 e hmem
    cases r with
    | ok p f =>
      have hrest : RowScan.scanFail e ∈ rest := by simpa using hmem
      rw [scanRows]
      exact ih _ _ e hrest
    | scanFail m => exact ⟨m, rfl⟩

theorem scanRows_rowsErr (img : image) (e : String) :
    ∀ (rows : List RowScan) (acc1 : List String) (acc2 : List Nat),
      (∀ r ∈ rows, rowScanOk r = true) →
      scanRows img (some e) rows acc1 acc2 = .fatal e := by
  intro rows
  induction rows with
  | nil => intro acc1 acc2 _; simp [scanRows]
  | cons r rest ih =>
    intro acc1 acc2 hok
    cases r with
    | ok p f =>
      rw [scanRows]
      exact ih _ _ (fun r hr => hok r (by simp [hr]))
    | scanFail m =>
      exact absurd (hok (RowScan.scanFail m) (by simp)) (by simp [rowScanOk])

/-- Claim C5 (counterexample): a row-scan failure does NOT terminate only
that one lookup — `lookupHash` reaches `log.Fatal(err)`, modelled as the
`fatal` outcome, which exits the whole process. -/
theorem lookupHash_scanFatal_counterexample :
    lookupHash
        { queryErr := none,
          rows := [RowScan.scanFail "sql: Scan error on column index 0"],
          rowsErr := none }
        img0 =
      LookupOutcome.fatal "sql: Scan error on column index 0" := rfl

/-- Claim C5 (amended): in query mode a `stmt.Query` failure is logged
and terminates only that descriptor's lookup (each lookup is an
independent `lookupHash` call on its own oracle, so others are
unaffected); but a row-scan failure, or a final `rows.Err()` error, goes
through `log.Fatal` and terminates the whole process. -/
theorem lookupHash_error_policy (o : LookupOracle) (img : image) :
    (∀ e, o.queryErr = some e → lookupHash o img = .logged) ∧
      (∀ e, o.queryErr = none → RowScan.scanFail e ∈ o.rows →
        ∃ m, lookupHash o img = .fatal m) ∧
      (∀ e, o.queryErr = none → (∀ r ∈ o.rows, rowScanOk r = true) →
        o.rowsErr = some e → lookupHash o img = .fatal e) ∧
      (o.queryErr = none → (∀ r ∈ o.rows, rowScanOk r = true) → o.rowsErr = none →
        lookupHash o img =
          .printed img.path (unpackHash img.hash) (rowPaths o.rows) (rowFrames o.rows)) := by
  refine ⟨?_, ?_, ?_, ?_⟩
  · intro e hq; simp [lookupHash, hq]
  · intro e hq hmem
    simp only [lookupHash, hq]
    exact scanRows_scanFail img o.rowsErr o.rows [] [] e hmem
  · intro e hq hok hre
    simp only [lookupHash, hq, hre]
    exact scanRows_rowsErr img e o.rows [] [] hok
  · intro hq hok hre
    simp only [lookupHash, hq, hre]
    simpa using scanRows_all_ok img o.rows [] [] hok

/-- Witness for claim C5 (amended): a failed `stmt.Query` only logs and
skips this one lookup. -/
theorem lookupHash_error_policy_witness :
    lookupHash { queryErr := some "no such table: key_hashes", rows := [], rowsErr := none }
        img0 =
      LookupOutcome.logged :=
  (lookupHash_error_policy
      { queryErr := some "no such table: key_hashes", rows := [], rowsErr := none }
      img0).1 "no such table: key_hashes" rfl
